import Mathlib

/-!
# Verification of the ayana-bot moderation subsystem

A shallow embedding of the violation-detection and warning-escalation
subsystem of the ayana-bot repository (`src/cogs/moderation.py` and
`src/warn_store.py`), together with theorems settling the specification
claims about it.

Conventions of the embedding:
* timestamps from `time.monotonic()` live in a linearly ordered time
  domain; the embedding uses `ℤ` (only ordering and differences matter);
* datetimes are integer epoch seconds (`ℤ`);
* Python `int` settings values are `ℤ`;
* the MySQL tables are lists of records, queried by `List.filter`;
* stateful methods become pure functions from old state to new state.
-/

namespace Ayana

/-! ## SpamWindow (`ModerationCog._is_spam_violation`)

The Python method keeps, per `(guild_id, author_id)` key, a deque of
`time.monotonic()` timestamps.  On each message it clamps the policy values
(`max(2, automod_spam_max_messages)`, `max(1, automod_spam_interval_seconds)`),
pops entries from the front while `now - bucket[0] > interval_seconds`,
appends `now`, and trips (clearing the whole deque) when the length reaches
the clamped maximum.  Buckets of distinct keys never interact, so the
embedding models the single bucket for one key. -/

/-- The eviction loop `while bucket and now - bucket[0] > interval_seconds:
bucket.popleft()` from `_is_spam_violation` (moderation.py:273-274).
`intervalSecondsRaw` is clamped to at least 1 exactly as in the source. -/
def spamPrune (intervalSecondsRaw : ℤ) (now : ℤ) (bucket : List ℤ) : List ℤ :=
  bucket.dropWhile (fun t => decide ((max 1 intervalSecondsRaw : ℤ) < now - t))

/-- One call of `_is_spam_violation` (moderation.py:261-281) for a fixed key:
prune stale entries, append `now`, trip (returning `true` and clearing the
bucket) when the resulting length reaches `max 2 maxMessagesRaw`.  Returns
(violation flag, new bucket). -/
def spamRecord (maxMessagesRaw intervalSecondsRaw : ℤ) (now : ℤ)
    (bucket : List ℤ) : Bool × List ℤ :=
  let appended := spamPrune intervalSecondsRaw now bucket ++ [now]
  if (appended.length : ℤ) < max 2 maxMessagesRaw then (false, appended)
  else (true, [])

/-- Feeding a sequence of message timestamps through `_is_spam_violation`
for one key, collecting the returned flags and the final bucket. -/
def spamRecordSeq (maxMessagesRaw intervalSecondsRaw : ℤ) :
    List ℤ → List ℤ → List Bool × List ℤ
  | bucket, [] => ([], bucket)
  | bucket, t :: ts =>
      ((spamRecord maxMessagesRaw intervalSecondsRaw t bucket).1 ::
        (spamRecordSeq maxMessagesRaw intervalSecondsRaw
          (spamRecord maxMessagesRaw intervalSecondsRaw t bucket).2 ts).1,
       (spamRecordSeq maxMessagesRaw intervalSecondsRaw
          (spamRecord maxMessagesRaw intervalSecondsRaw t bucket).2 ts).2)

lemma spamRecordSeq_cons (m i : ℤ) (bucket : List ℤ) (t : ℤ) (ts : List ℤ) :
    spamRecordSeq m i bucket (t :: ts) =
      ((spamRecord m i t bucket).1 ::
        (spamRecordSeq m i (spamRecord m i t bucket).2 ts).1,
       (spamRecordSeq m i (spamRecord m i t bucket).2 ts).2) := rfl

example : spamRecordSeq 3 5 [] [0, 1, 2] = ([false, false, true], []) := by decide

example : spamRecordSeq 3 5 [] [0, 1] = ([false, false], [0, 1]) := by decide

example : spamRecordSeq 2 1 [] [0, 10] = ([false, false], [10]) := by decide

/-- A call that does not reach the clamped maximum returns `false` and leaves
the bucket extended by `now`, provided no entry is stale. -/
lemma spamRecord_false (m i : ℤ) (now : ℤ) (bucket : List ℤ)
    (hfresh : ∀ t ∈ bucket, now - t ≤ (max 1 i : ℤ))
    (hlen : (bucket.length : ℤ) + 1 < max 2 m) :
    spamRecord m i now bucket = (false, bucket ++ [now]) := by
  have hprune : spamPrune i now bucket = bucket := by
    unfold spamPrune
    cases bucket with
    | nil => rfl
    | cons a l =>
        rw [List.dropWhile_cons]
        simp only [decide_eq_true_eq]
        rw [if_neg]
        exact not_lt.mpr (hfresh a (List.mem_cons_self a l))
  unfold spamRecord
  rw [hprune]
  rw [if_pos]
  simpa using hlen

/-- A call that reaches the clamped maximum trips: it returns `true` and the
bucket is cleared, provided no entry is stale. -/
lemma spamRecord_trip (m i : ℤ) (now : ℤ) (bucket : List ℤ)
    (hfresh : ∀ t ∈ bucket, now - t ≤ (max 1 i : ℤ))
    (hlen : max 2 m ≤ (bucket.length : ℤ) + 1) :
    spamRecord m i now bucket = (true, []) := by
  have hprune : spamPrune i now bucket = bucket := by
    unfold spamPrune
    cases bucket with
    | nil => rfl
    | cons a l =>
        rw [List.dropWhile_cons]
        simp only [decide_eq_true_eq]
        rw [if_neg]
        exact not_lt.mpr (hfresh a (List.mem_cons_self a l))
  unfold spamRecord
  rw [hprune]
  rw [if_neg]
  simpa using hlen

/-- Invariant run: if the bucket and the pending timestamps together span at
most the clamped interval (pairwise), and their joint count is exactly the
clamped maximum, then every call but the last returns `false`, the last
returns `true`, and the final bucket is empty. -/
lemma spamRecordSeq_fills (m i : ℤ) :
    ∀ (ts bucket : List ℤ), ts ≠ [] →
    ((bucket.length : ℤ) + ts.length = max 2 m) →
    List.Pairwise (fun a b => b - a ≤ (max 1 i : ℤ)) (bucket ++ ts) →
    spamRecordSeq m i bucket ts =
      (List.replicate (ts.length - 1) false ++ [true], []) := by
  intro ts
  induction ts with
  | nil => intro bucket h; exact absurd rfl h
  | cons t rest ih =>
      intro bucket _ hlen hpw
      have hfresh : ∀ s ∈ bucket, t - s ≤ (max 1 i : ℤ) := by
        intro s hs
        have := (List.pairwise_append.mp hpw).2.2 s hs t (List.mem_cons_self t rest)
        exact this
      cases rest with
      | nil =>
          have htrip : spamRecord m i t bucket = (true, []) := by
            apply spamRecord_trip m i t bucket hfresh
            push_cast [List.length_cons, List.length_nil] at hlen
            omega
          rw [spamRecordSeq_cons, htrip]
          simp [spamRecordSeq]
      | cons t2 rest2 =>
          push_cast [List.length_cons] at hlen
          have hstep : spamRecord m i t bucket = (false, bucket ++ [t]) := by
            apply spamRecord_false m i t bucket hfresh
            omega
          have hassoc : (bucket ++ [t]) ++ (t2 :: rest2) = bucket ++ (t :: t2 :: rest2) := by
            simp
          have hrec := ih (bucket ++ [t]) (by simp)
            (by push_cast [List.length_append, List.length_cons, List.length_nil]; omega)
            (by rw [hassoc]; exact hpw)
          rw [spamRecordSeq_cons, hstep]
          rw [hrec]
          simp [List.replicate_succ]

/-- Invariant run: if the bucket and pending timestamps stay pairwise within
the clamped interval but their joint count stays below the clamped maximum,
every call returns `false` and the bucket accumulates every timestamp. -/
lemma spamRecordSeq_no_trip (m i : ℤ) :
    ∀ (ts bucket : List ℤ),
    ((bucket.length : ℤ) + ts.length < max 2 m) →
    List.Pairwise (fun a b => b - a ≤ (max 1 i : ℤ)) (bucket ++ ts) →
    spamRecordSeq m i bucket ts =
      (List.replicate ts.length false, bucket ++ ts) := by
  intro ts
  induction ts with
  | nil => intro bucket _ _; simp [spamRecordSeq]
  | cons t rest ih =>
      intro bucket hlen hpw
      have hfresh : ∀ s ∈ bucket, t - s ≤ (max 1 i : ℤ) := by
        intro s hs
        exact (List.pairwise_append.mp hpw).2.2 s hs t (List.mem_cons_self t rest)
      push_cast [List.length_cons] at hlen
      have hstep : spamRecord m i t bucket = (false, bucket ++ [t]) := by
        apply spamRecord_false m i t bucket hfresh
        omega
      have hassoc : (bucket ++ [t]) ++ rest = bucket ++ (t :: rest) := by simp
      have hrec := ih (bucket ++ [t])
        (by push_cast [List.length_append, List.length_cons, List.length_nil]; omega)
        (by rw [hassoc]; exact hpw)
      rw [spamRecordSeq_cons, hstep]
      rw [hrec]
      simp [List.replicate_succ]

/-- On a sorted bucket, every entry surviving the eviction loop is within the
clamped interval of `now`: stale entries are evicted before the count. -/
lemma spamPrune_fresh (i : ℤ) (now : ℤ) (bucket : List ℤ)
    (hsorted : List.Pairwise (· ≤ ·) bucket) :
    ∀ t ∈ spamPrune i now bucket, now - t ≤ (max 1 i : ℤ) := by
  induction bucket with
  | nil => intro t ht; simp [spamPrune] at ht
  | cons a l ih =>
      intro t ht
      unfold spamPrune at ht
      rw [List.dropWhile_cons] at ht
      by_cases h : (max 1 i : ℤ) < now - a
      · simp only [decide_eq_true_eq, if_pos h] at ht
        exact ih hsorted.of_cons t ht
      · simp only [decide_eq_true_eq, if_neg h] at ht
        rcases List.mem_cons.mp ht with rfl | hmem
        · exact not_lt.mp h
        · have hal : a ≤ t := List.rel_of_pairwise_cons hsorted hmem
          have := not_lt.mp h
          linarith

/-- Claim C1. For every (guild, user) key: after clamping (`maxMessages` to at
least 2, `intervalSeconds` to at least 1), a sequence of exactly the clamped
maximum of calls whose timestamps stay pairwise within the clamped interval
returns `true` exactly once, on the last call, and the bucket is empty
immediately afterwards; a sequence of fewer calls within the window never
returns `true`; and on a (chronologically sorted) bucket every entry older
than `now - intervalSeconds` is evicted before the count is taken. -/
theorem spam_window_contract (m i : ℤ) :
    (∀ ts : List ℤ, (ts.length : ℤ) = max 2 m →
      List.Pairwise (fun a b => b - a ≤ (max 1 i : ℤ)) ts →
      spamRecordSeq m i [] ts =
        (List.replicate (ts.length - 1) false ++ [true], [])) ∧
    (∀ ts : List ℤ, (ts.length : ℤ) < max 2 m →
      List.Pairwise (fun a b => b - a ≤ (max 1 i : ℤ)) ts →
      (spamRecordSeq m i [] ts).1 = List.replicate ts.length false) ∧
    (∀ now : ℤ, ∀ bucket : List ℤ, List.Pairwise (· ≤ ·) bucket →
      ∀ t ∈ spamPrune i now bucket, now - t ≤ (max 1 i : ℤ)) := by
  refine ⟨?_, ?_, ?_⟩
  · intro ts hlen hpw
    have hne : ts ≠ [] := by
      intro h
      rw [h] at hlen
      simp at hlen
      omega
    exact spamRecordSeq_fills m i ts [] hne (by simpa using hlen) (by simpa using hpw)
  · intro ts hlen hpw
    have h := spamRecordSeq_no_trip m i ts [] (by simpa using hlen) (by simpa using hpw)
    rw [h]
  · intro now bucket hsorted t ht
    exact spamPrune_fresh i now bucket hsorted t ht

theorem spam_window_contract_witness :
    spamRecordSeq 3 5 [] [0, 1, 2] = ([false, false, true], []) ∧
    (spamRecordSeq 3 5 [] [0, 1]).1 = [false, false] ∧
    (10 : ℤ) - 9 ≤ (max 1 5 : ℤ) := by
  refine ⟨?_, ?_, ?_⟩
  · exact ((spam_window_contract 3 5).1 [0, 1, 2] (by decide) (by decide)).trans (by decide)
  · exact ((spam_window_contract 3 5).2.1 [0, 1] (by decide) (by decide)).trans (by decide)
  · exact (spam_window_contract 3 5).2.2 10 [0, 9] (by decide) 9 (by decide)

/-! ## Guild settings and the AutoMod classifier (`ModerationCog.on_message`)

`GuildSettings` mirrors the normalized settings dictionary produced by
`WarnStore._normalize_settings` (warn_store.py:474-498): every field is
always present, so the `settings.get(key, default)` fallbacks in
moderation.py never fire.  `MessageEvent` carries exactly the inputs of a
guild message event that `on_message` reads: the author's permission flags
and role ids, whether `LINK_RE` matches the content, the mention count and
the arrival timestamp. -/

structure GuildSettings where
  modLogChannelId : Option ℤ
  automodLogChannelId : Option ℤ
  warnTimeoutThreshold : ℤ
  warnBanThreshold : ℤ
  warnExpirationDays : ℤ
  warnTimeoutDurationMinutes : ℤ
  automodEnabled : Bool
  automodAntiSpam : Bool
  automodAntiLink : Bool
  automodAntiMentionFlood : Bool
  automodSpamMaxMessages : ℤ
  automodSpamIntervalSeconds : ℤ
  automodMentionLimit : ℤ
  automodBypassRoleIds : List ℤ
deriving DecidableEq

/-- The `DEFAULT_GUILD_SETTINGS` values (warn_store.py:12-27). -/
def defaultGuildSettings : GuildSettings :=
  { modLogChannelId := none
    automodLogChannelId := none
    warnTimeoutThreshold := 3
    warnBanThreshold := 5
    warnExpirationDays := 60
    warnTimeoutDurationMinutes := 60
    automodEnabled := true
    automodAntiSpam := true
    automodAntiLink := true
    automodAntiMentionFlood := true
    automodSpamMaxMessages := 5
    automodSpamIntervalSeconds := 8
    automodMentionLimit := 5
    automodBypassRoleIds := [] }

structure MessageEvent where
  authorIsAdmin : Bool
  authorCanManageGuild : Bool
  authorRoleIds : List ℤ
  hasLink : Bool
  mentionCount : ℤ
  timestamp : ℤ
deriving DecidableEq

/-- Method `ModerationCog._is_automod_bypass` (moderation.py:148-155): administrator
or manage-guild permission, else membership of one of the configured bypass
roles (with the early `return False` on an empty bypass set). -/
def isAutomodBypass (ev : MessageEvent) (s : GuildSettings) : Bool :=
  if ev.authorIsAdmin || ev.authorCanManageGuild then true
  else if s.automodBypassRoleIds.isEmpty then false
  else ev.authorRoleIds.any (fun r => s.automodBypassRoleIds.contains r)

/-- The three AutoMod rule tags assigned by `on_message`
(moderation.py:428-436). -/
inductive AutomodRule where
  | automodLink
  | automodMentionFlood
  | automodSpam
deriving DecidableEq

/-- The classification part of `ModerationCog.on_message`
(moderation.py:399-439) for one guild-member message: the enabled/bypass
gates, then the `elif` chain link → mention flood → spam.  Returns the rule
that matched (if any) together with the author's spam bucket after the
call — the bucket is touched only when the spam branch runs. -/
def classifyMessage (ev : MessageEvent) (s : GuildSettings) (bucket : List ℤ) :
    Option AutomodRule × List ℤ :=
  if !s.automodEnabled then (none, bucket)
  else if isAutomodBypass ev s then (none, bucket)
  else if s.automodAntiLink && ev.hasLink then (some .automodLink, bucket)
  else if s.automodAntiMentionFlood &&
      decide (max 1 s.automodMentionLimit ≤ ev.mentionCount) then
    (some .automodMentionFlood, bucket)
  else if s.automodAntiSpam then
    match spamRecord s.automodSpamMaxMessages s.automodSpamIntervalSeconds
        ev.timestamp bucket with
    | (true, b) => (some .automodSpam, b)
    | (false, b) => (none, b)
  else (none, bucket)

/-- Claim C4. A guild message whose author has administrative capability
(administrator or manage-guild permission) or holds a configured bypass role
produces no violation and leaves the author's spam bucket untouched,
regardless of content — even with spam detection enabled. -/
theorem bypass_no_violation (ev : MessageEvent) (s : GuildSettings)
    (bucket : List ℤ)
    (h : ev.authorIsAdmin = true ∨ ev.authorCanManageGuild = true ∨
         ∃ r ∈ ev.authorRoleIds, r ∈ s.automodBypassRoleIds) :
    classifyMessage ev s bucket = (none, bucket) := by
  have hbp : isAutomodBypass ev s = true := by
    unfold isAutomodBypass
    rcases h with h | h | ⟨r, hr, hrs⟩
    · rw [if_pos]; simp [h]
    · rw [if_pos]; simp [h]
    · by_cases hperm : (ev.authorIsAdmin || ev.authorCanManageGuild) = true
      · rw [if_pos hperm]
      · rw [if_neg hperm]
        have hne : s.automodBypassRoleIds.isEmpty = false := by
          cases hl : s.automodBypassRoleIds with
          | nil => rw [hl] at hrs; simp at hrs
          | cons a l => simp [hl]
        rw [if_neg (by simp [hne])]
        rw [List.any_eq_true]
        exact ⟨r, hr, by simpa using hrs⟩
  unfold classifyMessage
  by_cases hen : s.automodEnabled
  · rw [if_neg (by simp [hen]), if_pos hbp]
  · rw [if_pos (by simp [hen])]

theorem bypass_no_violation_witness :
    classifyMessage ⟨false, false, [42], true, 9, 0⟩
      { defaultGuildSettings with automodBypassRoleIds := [42] } [0, 1] =
      (none, [0, 1]) :=
  bypass_no_violation ⟨false, false, [42], true, 9, 0⟩
    { defaultGuildSettings with automodBypassRoleIds := [42] } [0, 1]
    (Or.inr (Or.inr ⟨42, by decide, by decide⟩))

/-- Claim C9. On a non-bypassed guild message matched by the enabled anti-link
rule or the enabled anti-mention-flood rule, the author's spam bucket is left
unchanged: the message never counts toward the spam threshold, even when spam
detection is enabled. -/
theorem higher_priority_rule_preserves_bucket (ev : MessageEvent)
    (s : GuildSettings) (bucket : List ℤ)
    (hen : s.automodEnabled = true)
    (hbp : isAutomodBypass ev s = false)
    (hmatch : (s.automodAntiLink = true ∧ ev.hasLink = true) ∨
      (s.automodAntiMentionFlood = true ∧
        max 1 s.automodMentionLimit ≤ ev.mentionCount)) :
    (classifyMessage ev s bucket).2 = bucket ∧
    ((classifyMessage ev s bucket).1 = some AutomodRule.automodLink ∨
     (classifyMessage ev s bucket).1 = some AutomodRule.automodMentionFlood) := by
  unfold classifyMessage
  rw [hen]
  simp only [Bool.not_true, Bool.false_eq_true, if_false, hbp, if_false]
  by_cases hlink : (s.automodAntiLink && ev.hasLink) = true
  · rw [if_pos hlink]
    exact ⟨rfl, Or.inl rfl⟩
  · rw [if_neg hlink]
    have hment : (s.automodAntiMentionFlood &&
        decide (max 1 s.automodMentionLimit ≤ ev.mentionCount)) = true := by
      rcases hmatch with ⟨h1, h2⟩ | ⟨h1, h2⟩
      · exact absurd (by simp [h1, h2]) hlink
      · simp [h1, h2]
    rw [if_pos hment]
    exact ⟨rfl, Or.inr rfl⟩

theorem higher_priority_rule_preserves_bucket_witness :
    (classifyMessage ⟨false, false, [], true, 0, 50⟩ defaultGuildSettings
      [45, 46, 47, 48]).2 = [45, 46, 47, 48] ∧
    ((classifyMessage ⟨false, false, [], true, 0, 50⟩ defaultGuildSettings
      [45, 46, 47, 48]).1 = some AutomodRule.automodLink ∨
     (classifyMessage ⟨false, false, [], true, 0, 50⟩ defaultGuildSettings
      [45, 46, 47, 48]).1 = some AutomodRule.automodMentionFlood) :=
  higher_priority_rule_preserves_bucket ⟨false, false, [], true, 0, 50⟩
    defaultGuildSettings [45, 46, 47, 48] (by decide) (by decide)
    (Or.inl ⟨by decide, by decide⟩)

/-! ## Infractions and the escalation engine (`_apply_warn_escalation`)

An `Infraction` row of the `infractions` table (warn_store.py:167-183).
`safeLogInfraction` is `ModerationCog._safe_log_infraction`
(moderation.py:197-224): the `log_infraction` insert either succeeds
(appending the row) or raises — in which case the exception is caught and
only logged, leaving the table unchanged and the caller unaffected.  The
`succeeds` flag is the environment's verdict on the persistence write. -/

structure Infraction where
  guildId : ℤ
  userId : ℤ
  actorId : ℤ
  action : String
  reason : String
  relatedWarningId : Option ℤ
  expiresAt : Option ℤ
deriving DecidableEq

/-- Method `ModerationCog._safe_log_infraction` (moderation.py:197-224). -/
def safeLogInfraction (succeeds : Bool) (table : List Infraction)
    (entry : Infraction) : List Infraction :=
  if succeeds then table ++ [entry] else table

/-- Verdicts of the external collaborators consulted by
`_apply_warn_escalation`: the member's administrator flag, the bot-hierarchy
check `_can_bot_moderate_member` (moderation.py:98-105), and whether each
external call (ban, timeout edit, audit insert) succeeds or raises. -/
structure EscalationEnv where
  memberIsAdmin : Bool
  canBotModerate : Bool
  banCallSucceeds : Bool
  timeoutCallSucceeds : Bool
  auditWriteSucceeds : Bool
deriving DecidableEq

/-- The status strings returned by `_apply_warn_escalation`
(moderation.py:283-348), one constructor per distinct return. -/
inductive EscalationStatus where
  | banNoHierarchy
  | banFailed
  | banApplied
  | timeoutSkippedAdmin
  | timeoutNoHierarchy
  | timeoutFailed
  | timeoutApplied (durationMinutes : ℤ)
deriving DecidableEq

/-- The external restriction calls `_apply_warn_escalation` can make:
`member.ban(...)` or `member.edit(timed_out_until=...)`. -/
inductive ModAction where
  | banMember
  | timeoutMember (untilTime : ℤ)
deriving DecidableEq

structure EscalationOutcome where
  status : Option EscalationStatus
  attempted : Option ModAction
  infractions : List Infraction
deriving DecidableEq

/-- Method `ModerationCog._apply_warn_escalation` (moderation.py:283-348): the ban
check (threshold enabled and reached, hierarchy gate, external ban call,
best-effort audit write), else the timeout check (threshold enabled and
reached, administrator exemption, hierarchy gate, duration clamped by
`max(1, min(raw, 40320))` then by the 28-day ceiling of the timeout
primitive, external edit call, best-effort audit write), else no
escalation.  `now` is the UTC time used for `timed_out_until`, in epoch
seconds. -/
def applyWarnEscalation (guildId userId actorId now activeWarnings : ℤ)
    (s : GuildSettings) (env : EscalationEnv)
    (infractions : List Infraction) : EscalationOutcome :=
  if s.warnBanThreshold > 0 ∧ activeWarnings ≥ s.warnBanThreshold then
    if !env.canBotModerate then ⟨some .banNoHierarchy, none, infractions⟩
    else if !env.banCallSucceeds then
      ⟨some .banFailed, some .banMember, infractions⟩
    else
      ⟨some .banApplied, some .banMember,
        safeLogInfraction env.auditWriteSucceeds infractions
          ⟨guildId, userId, actorId, "auto_ban_warns",
            ("Escalonamento automatico: " ++ toString activeWarnings ++
              " warns ativos (limite de ban: " ++
              toString s.warnBanThreshold ++ ")."),
            none, none⟩⟩
  else if s.warnTimeoutThreshold > 0 ∧ activeWarnings ≥ s.warnTimeoutThreshold then
    if env.memberIsAdmin then ⟨some .timeoutSkippedAdmin, none, infractions⟩
    else if !env.canBotModerate then ⟨some .timeoutNoHierarchy, none, infractions⟩
    else
      let durationMinutes := max 1 (min s.warnTimeoutDurationMinutes 40320)
      let timedOutUntil := now + 60 * min durationMinutes 40320
      if !env.timeoutCallSucceeds then
        ⟨some .timeoutFailed, some (.timeoutMember timedOutUntil), infractions⟩
      else
        ⟨some (.timeoutApplied durationMinutes),
          some (.timeoutMember timedOutUntil),
          safeLogInfraction env.auditWriteSucceeds infractions
            ⟨guildId, userId, actorId, "auto_timeout_warns",
              ("Escalonamento automatico: " ++ toString activeWarnings ++
                " warns ativos (limite de timeout: " ++
                toString s.warnTimeoutThreshold ++ ")."),
              none, some timedOutUntil⟩⟩
  else ⟨none, none, infractions⟩

/-- Claim C2. The escalation evaluation checks ban before timeout: with the ban
threshold enabled and reached it never attempts a timeout, and (hierarchy
permitting) attempts a permanent ban; otherwise, with the timeout threshold
enabled and reached, a non-administrator target and sufficient hierarchy, it
attempts a timeout until `now + min(warnTimeoutDurationMinutes, 28 days)`;
at one active warning below the timeout threshold (and below the ban
threshold) nothing is attempted; a threshold of 0 disables its check. -/
theorem escalation_order_contract (g u a now active : ℤ) (s : GuildSettings)
    (env : EscalationEnv) (infr : List Infraction) :
    (s.warnBanThreshold > 0 → active ≥ s.warnBanThreshold →
      (∀ d, (applyWarnEscalation g u a now active s env infr).attempted ≠
          some (ModAction.timeoutMember d)) ∧
      (env.canBotModerate = true →
        (applyWarnEscalation g u a now active s env infr).attempted =
          some ModAction.banMember)) ∧
    (¬(s.warnBanThreshold > 0 ∧ active ≥ s.warnBanThreshold) →
      s.warnTimeoutThreshold > 0 → active ≥ s.warnTimeoutThreshold →
      env.memberIsAdmin = false → env.canBotModerate = true →
      1 ≤ s.warnTimeoutDurationMinutes →
      (applyWarnEscalation g u a now active s env infr).attempted =
        some (ModAction.timeoutMember
          (now + 60 * min s.warnTimeoutDurationMinutes 40320))) ∧
    (active = s.warnTimeoutThreshold - 1 →
      (s.warnBanThreshold ≤ 0 ∨ active < s.warnBanThreshold) →
      applyWarnEscalation g u a now active s env infr =
        ⟨none, none, infr⟩) ∧
    (s.warnBanThreshold = 0 →
      (applyWarnEscalation g u a now active s env infr).attempted ≠
        some ModAction.banMember) ∧
    (s.warnTimeoutThreshold = 0 → ∀ d,
      (applyWarnEscalation g u a now active s env infr).attempted ≠
        some (ModAction.timeoutMember d)) := by
  refine ⟨?_, ?_, ?_, ?_, ?_⟩
  · intro hb ha
    unfold applyWarnEscalation
    rw [if_pos ⟨hb, ha⟩]
    constructor
    · intro d
      cases hcm : env.canBotModerate <;> cases hbs : env.banCallSucceeds <;>
        simp [hcm, hbs]
    · intro hcm
      cases hbs : env.banCallSucceeds <;> simp [hcm, hbs]
  · intro hnb ht ha hadm hcm hdur
    unfold applyWarnEscalation
    rw [if_neg hnb, if_pos ⟨ht, ha⟩, hadm, hcm]
    have hmin : min (max 1 (min s.warnTimeoutDurationMinutes 40320)) 40320 =
        min s.warnTimeoutDurationMinutes 40320 := by omega
    cases hts : env.timeoutCallSucceeds <;> simp [hts, hmin] <;> omega
  · intro heq hlt
    unfold applyWarnEscalation
    have hnb : ¬(s.warnBanThreshold > 0 ∧ active ≥ s.warnBanThreshold) := by
      rcases hlt with h | h <;> omega
    rw [if_neg hnb, if_neg (by omega)]
  · intro hb0
    unfold applyWarnEscalation
    rw [if_neg (by omega)]
    by_cases ht : s.warnTimeoutThreshold > 0 ∧ active ≥ s.warnTimeoutThreshold
    · rw [if_pos ht]
      cases hadm : env.memberIsAdmin <;> cases hcm : env.canBotModerate <;>
        cases hts : env.timeoutCallSucceeds <;> simp [hadm, hcm, hts]
    · rw [if_neg ht]
      simp
  · intro ht0 d
    unfold applyWarnEscalation
    by_cases hban : s.warnBanThreshold > 0 ∧ active ≥ s.warnBanThreshold
    · rw [if_pos hban]
      cases hcm : env.canBotModerate <;> cases hbs : env.banCallSucceeds <;>
        simp [hcm, hbs]
    · rw [if_neg hban, if_neg (by omega)]
      simp

theorem escalation_order_contract_witness :
    ((applyWarnEscalation 1 2 3 1000 5 defaultGuildSettings
        ⟨false, true, true, true, true⟩ []).attempted =
      some ModAction.banMember) ∧
    ((applyWarnEscalation 1 2 3 1000 3 defaultGuildSettings
        ⟨false, true, true, true, true⟩ []).attempted =
      some (ModAction.timeoutMember (1000 + 60 * min 60 40320))) ∧
    (applyWarnEscalation 1 2 3 1000 2 defaultGuildSettings
        ⟨false, true, true, true, true⟩ [] = ⟨none, none, []⟩) := by
  refine ⟨?_, ?_, ?_⟩
  · exact ((escalation_order_contract 1 2 3 1000 5 defaultGuildSettings
      ⟨false, true, true, true, true⟩ []).1 (by decide) (by decide)).2 rfl
  · exact (escalation_order_contract 1 2 3 1000 3 defaultGuildSettings
      ⟨false, true, true, true, true⟩ []).2.1 (by decide) (by decide)
      (by decide) rfl rfl (by decide)
  · exact (escalation_order_contract 1 2 3 1000 2 defaultGuildSettings
      ⟨false, true, true, true, true⟩ []).2.2.1 (by decide) (Or.inr (by decide))

/-! ## Warn-policy updates (`/setwarnpolicy`)

The only code path that updates `warn_timeout_threshold` /
`warn_ban_threshold` is the `setwarnpolicy` command
(moderation.py:1347-1417).  It merges the given fields over the current
settings, validates the threshold invariant on the merged values, and only
then calls `WarnStore.update_guild_settings` (warn_store.py:282-302), which
writes the given fields and re-reads the row. -/

inductive SetWarnPolicyOutcome where
  | noFieldsGiven
  | thresholdViolation
  | updated (s : GuildSettings)
deriving DecidableEq

/-- The `setwarnpolicy` command handler (moderation.py:1347-1417): reject
when no field is given; compute the final thresholds (given value or current
stored value); reject when both final thresholds are nonzero with ban below
timeout, issuing no write; otherwise write exactly the given fields. -/
def setwarnpolicy (current : GuildSettings)
    (timeoutWarns banWarns expirationDays timeoutDurationMinutes : Option ℤ) :
    SetWarnPolicyOutcome :=
  if timeoutWarns = none ∧ banWarns = none ∧ expirationDays = none ∧
      timeoutDurationMinutes = none then
    .noFieldsGiven
  else
    let finalTimeout := timeoutWarns.getD current.warnTimeoutThreshold
    let finalBan := banWarns.getD current.warnBanThreshold
    if finalTimeout > 0 ∧ finalBan > 0 ∧ finalBan < finalTimeout then
      .thresholdViolation
    else
      .updated { current with
        warnTimeoutThreshold := finalTimeout
        warnBanThreshold := finalBan
        warnExpirationDays := expirationDays.getD current.warnExpirationDays
        warnTimeoutDurationMinutes :=
          timeoutDurationMinutes.getD current.warnTimeoutDurationMinutes }

/-- The stored settings row after the command: changed only by a
successful update. -/
def storedAfterSetWarnPolicy (current : GuildSettings)
    (o : SetWarnPolicyOutcome) : GuildSettings :=
  match o with
  | .updated s => s
  | _ => current

/-- Claim C3. A policy update whose field changes would make both thresholds
nonzero with the ban threshold strictly below the timeout threshold is
rejected by validation before any write is issued, and the stored policy is
unmodified. -/
theorem setwarnpolicy_validates_thresholds (current : GuildSettings)
    (tW bW eD tD : Option ℤ)
    (hgiven : ¬(tW = none ∧ bW = none ∧ eD = none ∧ tD = none))
    (ht : tW.getD current.warnTimeoutThreshold > 0)
    (hb : bW.getD current.warnBanThreshold > 0)
    (hlt : bW.getD current.warnBanThreshold <
      tW.getD current.warnTimeoutThreshold) :
    setwarnpolicy current tW bW eD tD = SetWarnPolicyOutcome.thresholdViolation ∧
    storedAfterSetWarnPolicy current (setwarnpolicy current tW bW eD tD) =
      current := by
  have h : setwarnpolicy current tW bW eD tD =
      SetWarnPolicyOutcome.thresholdViolation := by
    unfold setwarnpolicy
    rw [if_neg hgiven, if_pos ⟨ht, hb, hlt⟩]
  exact ⟨h, by rw [h]; rfl⟩

theorem setwarnpolicy_validates_thresholds_witness :
    setwarnpolicy defaultGuildSettings (some 10) none none none =
      SetWarnPolicyOutcome.thresholdViolation ∧
    storedAfterSetWarnPolicy defaultGuildSettings
      (setwarnpolicy defaultGuildSettings (some 10) none none none) =
      defaultGuildSettings :=
  setwarnpolicy_validates_thresholds defaultGuildSettings
    (some 10) none none none (by decide) (by decide) (by decide) (by decide)

/-! ## The warning ledger (`WarnStore`)

`Warning` is a row of the `warnings` table (warn_store.py:131-145); the
table is a list, the `AUTO_INCREMENT` id a counter.  Python's
`reason.strip()[:512] or "Sem motivo informado."` is modelled by `pyStrip`
(strip whitespace at both ends) and `pyTruncate` (keep the first 512
characters).  A row is *active* when `expires_at IS NULL OR expires_at >
CURRENT_TIMESTAMP` (warn_store.py:329). -/

structure Warning where
  id : ℤ
  guildId : ℤ
  userId : ℤ
  moderatorId : ℤ
  reason : String
  expiresAt : Option ℤ
  createdAt : ℤ
deriving DecidableEq

structure WarnDB where
  warnings : List Warning
  nextId : ℤ
deriving DecidableEq

def emptyWarnDB : WarnDB := ⟨[], 1⟩

/-- Python `str.strip()`: drop whitespace from both ends. -/
def pyStrip (s : String) : String :=
  ⟨((s.data.dropWhile Char.isWhitespace).reverse.dropWhile
      Char.isWhitespace).reverse⟩

/-- Python `s[:n]`: keep the first `n` characters. -/
def pyTruncate (n : ℕ) (s : String) : String :=
  ⟨s.data.take n⟩

/-- Python `reason.strip()[:512] or "Sem motivo informado."`
(warn_store.py:312). -/
def sanitizeWarnReason (reason : String) : String :=
  if pyTruncate 512 (pyStrip reason) = "" then "Sem motivo informado."
  else pyTruncate 512 (pyStrip reason)

/-- The rows of one (guild, user): `WHERE guild_id = %s AND user_id = %s`. -/
def warnRows (db : WarnDB) (g u : ℤ) : List Warning :=
  db.warnings.filter (fun w => decide (w.guildId = g ∧ w.userId = u))

/-- SQL `expires_at IS NULL OR expires_at > CURRENT_TIMESTAMP`. -/
def warningIsActive (now : ℤ) (w : Warning) : Bool :=
  match w.expiresAt with
  | none => true
  | some e => decide (now < e)

structure AddWarningResult where
  db : WarnDB
  warningId : ℤ
  total : ℤ
  active : ℤ
deriving DecidableEq

/-- Method `WarnStore.add_warning` (warn_store.py:304-339): sanitize the reason,
insert the row, then read `COUNT(*)` and the active count for the
(guild, user) pair from the post-insert table. -/
def addWarning (db : WarnDB) (now guildId userId moderatorId : ℤ)
    (reason : String) (expiresAt : Option ℤ) : AddWarningResult :=
  let w : Warning :=
    ⟨db.nextId, guildId, userId, moderatorId, sanitizeWarnReason reason,
      expiresAt, now⟩
  let db' : WarnDB := ⟨db.warnings ++ [w], db.nextId + 1⟩
  let rows := warnRows db' guildId userId
  ⟨db', db.nextId, (rows.length : ℤ),
    ((rows.filter (warningIsActive now)).length : ℤ)⟩

/-- The expiration computed by `ModerationCog._register_warning`
(moderation.py:361-364): `now + warn_expiration_days` days when the clamped
policy value is positive, else no expiration.  86400 seconds per day. -/
def computeWarnExpiresAt (now : ℤ) (s : GuildSettings) : Option ℤ :=
  if max 0 s.warnExpirationDays > 0 then
    some (now + max 0 s.warnExpirationDays * 86400)
  else none

/-- Method `WarnStore.clear_warnings` (warn_store.py:384-394): `DELETE ... WHERE
guild_id = %s AND user_id = %s`, returning the number of deleted rows. -/
def clearWarnings (db : WarnDB) (g u : ℤ) : WarnDB × ℤ :=
  (⟨db.warnings.filter (fun w => !decide (w.guildId = g ∧ w.userId = u)),
      db.nextId⟩,
   ((warnRows db g u).length : ℤ))

/-- The `/clearwarnings` command (moderation.py:1048-1107): clear the rows;
when nothing was removed reply without any further side effect; otherwise
best-effort log a `clearwarnings` infraction.  Returns the ledger, the
audit table and the removed count. -/
def clearwarningsCommand (db : WarnDB) (infractions : List Infraction)
    (g u actorId : ℤ) (auditSucceeds : Bool) :
    WarnDB × List Infraction × ℤ :=
  let r := clearWarnings db g u
  if r.2 = 0 then (r.1, infractions, 0)
  else
    (r.1,
     safeLogInfraction auditSucceeds infractions
       ⟨g, u, actorId, "clearwarnings", (toString r.2 ++ " warns removidos."), none, none⟩,
     r.2)

/-- Truncating to 512 characters yields the empty string only for the empty
string. -/
lemma pyTruncate_512_eq_empty (s : String) :
    pyTruncate 512 s = "" ↔ s = "" := by
  unfold pyTruncate
  constructor
  · intro h
    have hdata : s.data.take 512 = [] := congrArg String.data h
    rcases List.take_eq_nil_iff.mp hdata with h0 | hnil
    · exact absurd h0 (by norm_num)
    · cases s with
      | mk d => cases hnil; rfl
  · intro h
    rw [h]
    rfl

/-- Claim C5, amended. Every `add_warning` call stores exactly one row whose
expiration is `now + warnExpirationDays` days when that policy value is
positive and null when it is not, and whose reason is the *stripped* reason
truncated to 512 characters — the fixed placeholder when the stripped
reason is empty. -/
theorem add_warning_expiration_reason (db : WarnDB) (now g u m : ℤ)
    (reason : String) (s : GuildSettings) (w : Warning)
    (hw : (addWarning db now g u m reason
      (computeWarnExpiresAt now s)).db.warnings.getLast? = some w) :
    (addWarning db now g u m reason
      (computeWarnExpiresAt now s)).db.warnings = db.warnings ++ [w] ∧
    (0 < s.warnExpirationDays →
      w.expiresAt = some (now + s.warnExpirationDays * 86400)) ∧
    (s.warnExpirationDays ≤ 0 → w.expiresAt = none) ∧
    (pyStrip reason ≠ "" → w.reason = pyTruncate 512 (pyStrip reason)) ∧
    (pyStrip reason = "" → w.reason = "Sem motivo informado.") := by
  have hw' : w = ⟨db.nextId, g, u, m, sanitizeWarnReason reason,
      computeWarnExpiresAt now s, now⟩ := by
    unfold addWarning at hw
    rw [List.getLast?_concat] at hw
    exact (Option.some_injective _ hw).symm
  subst hw'
  refine ⟨rfl, ?_, ?_, ?_, ?_⟩
  · intro hpos
    unfold computeWarnExpiresAt
    rw [if_pos (by omega)]
    have : max 0 s.warnExpirationDays = s.warnExpirationDays := by omega
    rw [this]
  · intro hyp
    unfold computeWarnExpiresAt
    rw [if_neg (by omega)]
  · intro hne
    show sanitizeWarnReason reason = _
    unfold sanitizeWarnReason
    rw [if_neg (fun h => hne ((pyTruncate_512_eq_empty _).mp h))]
  · intro he
    show sanitizeWarnReason reason = _
    unfold sanitizeWarnReason
    rw [if_pos ((pyTruncate_512_eq_empty _).mpr he)]

theorem add_warning_expiration_reason_witness :
    ((addWarning emptyWarnDB 100 1 2 3 " a "
        (computeWarnExpiresAt 100 defaultGuildSettings)).db.warnings =
      [] ++ [⟨1, 1, 2, 3, "a", some (100 + 60 * 86400), 100⟩]) ∧
    (⟨1, 1, 2, 3, "a", some (100 + 60 * 86400), 100⟩ : Warning).expiresAt =
      some (100 + 60 * 86400) ∧
    (⟨1, 1, 2, 3, "a", some (100 + 60 * 86400), 100⟩ : Warning).reason =
      pyTruncate 512 (pyStrip " a ") := by
  have h := add_warning_expiration_reason emptyWarnDB 100 1 2 3 " a "
    defaultGuildSettings ⟨1, 1, 2, 3, "a", some (100 + 60 * 86400), 100⟩
    (by decide)
  exact ⟨h.1, h.2.1 (by decide), h.2.2.2.1 (by decide)⟩

/-- Claim C5, counterexample. The claim as stated — the stored reason equals
the *given* reason truncated to 512 characters whenever the trimmed reason
is nonempty — fails at the input `" a"`: the code stores the stripped
reason `"a"`, not `" a"`. -/
theorem add_warning_reason_counterexample :
    pyStrip " a" ≠ "" ∧
    pyTruncate 512 " a" = " a" ∧
    (addWarning emptyWarnDB 0 1 2 3 " a" none).db.warnings.map
      (fun w => w.reason) = ["a"] ∧
    (addWarning emptyWarnDB 0 1 2 3 " a" none).db.warnings.map
      (fun w => w.reason) ≠ [pyTruncate 512 " a"] := by
  refine ⟨by decide, by decide, by decide, by decide⟩

structure WarnCall where
  now : ℤ
  moderatorId : ℤ
  reason : String
  expiresAt : Option ℤ
deriving DecidableEq

/-- A sequence of `add_warning` calls for one (guild, user). -/
def addWarningSeq (g u : ℤ) : WarnDB → List WarnCall → WarnDB
  | db, [] => db
  | db, c :: cs =>
      addWarningSeq g u
        (addWarning db c.now g u c.moderatorId c.reason c.expiresAt).db cs

/-- Inserting a warning for (g, u) grows that pair's row set by exactly the
new row. -/
lemma warnRows_addWarning (db : WarnDB) (now g u m : ℤ) (reason : String)
    (expiresAt : Option ℤ) :
    warnRows (addWarning db now g u m reason expiresAt).db g u =
      warnRows db g u ++
        [⟨db.nextId, g, u, m, sanitizeWarnReason reason, expiresAt, now⟩] := by
  unfold addWarning warnRows
  rw [List.filter_append]
  simp

/-- Claim C6. The returned `totalCount` is the row count of the pair after the
insert; each insert for a pair grows that count by one (so `totalCount`
after N calls starting from an empty ledger equals N); and the returned
`activeCount` never exceeds `totalCount`. -/
theorem add_warning_counts (db : WarnDB) (now g u m : ℤ) (reason : String)
    (expiresAt : Option ℤ) (calls : List WarnCall) :
    ((addWarning db now g u m reason expiresAt).total =
      ((warnRows (addWarning db now g u m reason expiresAt).db g u).length
        : ℤ)) ∧
    ((warnRows (addWarning db now g u m reason expiresAt).db g u).length =
      (warnRows db g u).length + 1) ∧
    ((addWarning db now g u m reason expiresAt).active ≤
      (addWarning db now g u m reason expiresAt).total) ∧
    ((warnRows (addWarningSeq g u emptyWarnDB calls) g u).length =
      calls.length) := by
  refine ⟨rfl, ?_, ?_, ?_⟩
  · rw [warnRows_addWarning]
    simp
  · show (((warnRows (addWarning db now g u m reason expiresAt).db g
        u).filter (warningIsActive now)).length : ℤ) ≤
      ((warnRows (addWarning db now g u m reason expiresAt).db g u).length : ℤ)
    exact_mod_cast List.length_filter_le _ _
  · have key : ∀ (cs : List WarnCall) (d : WarnDB),
        (warnRows (addWarningSeq g u d cs) g u).length =
          (warnRows d g u).length + cs.length := by
      intro cs
      induction cs with
      | nil => intro d; simp [addWarningSeq]
      | cons c rest ih =>
          intro d
          show (warnRows (addWarningSeq g u _ rest) g u).length = _
          rw [ih, warnRows_addWarning]
          simp
          omega
    rw [key calls emptyWarnDB]
    simp [emptyWarnDB, warnRows]

/-- Claim C7. `clear_warnings` removes every row of the pair (expired and
active alike) and returns how many there were; rows of other pairs are
untouched; and on a pair with no rows the command returns 0 and has no side
effects at all — the ledger and the audit table are unchanged. -/
theorem clear_warnings_contract (db : WarnDB) (infractions : List Infraction)
    (g u actorId : ℤ) (auditSucceeds : Bool) :
    (warnRows (clearWarnings db g u).1 g u = []) ∧
    ((clearWarnings db g u).2 = ((warnRows db g u).length : ℤ)) ∧
    (∀ g' u', ¬(g' = g ∧ u' = u) →
      warnRows (clearWarnings db g u).1 g' u' = warnRows db g' u') ∧
    (warnRows db g u = [] →
      clearwarningsCommand db infractions g u actorId auditSucceeds =
        (db, infractions, 0)) := by
  refine ⟨?_, rfl, ?_, ?_⟩
  · unfold clearWarnings warnRows
    rw [List.filter_filter]
    have hfalse : ∀ w : Warning, (decide (w.guildId = g ∧ w.userId = u) &&
        !decide (w.guildId = g ∧ w.userId = u)) = false := by
      intro w
      cases h : decide (w.guildId = g ∧ w.userId = u) <;> simp [h]
    simp only [hfalse]
    exact List.filter_false _
  · intro g' u' hne
    unfold clearWarnings warnRows
    rw [List.filter_filter]
    apply List.filter_congr
    intro w _
    by_cases hgu : w.guildId = g ∧ w.userId = u
    · by_cases h' : w.guildId = g' ∧ w.userId = u'
      · exfalso
        rcases hgu with ⟨e1, e2⟩
        rcases h' with ⟨f1, f2⟩
        exact hne ⟨by rw [← f1, e1], by rw [← f2, e2]⟩
      · simp [hgu, h']
        intro e1 e2
        exact hne ⟨e1.symm, e2.symm⟩
    · simp [hgu]
  · intro hempty
    have hcount : (clearWarnings db g u).2 = 0 := by
      show ((warnRows db g u).length : ℤ) = 0
      rw [hempty]
      rfl
    have hkeep : (clearWarnings db g u).1 = db := by
      unfold clearWarnings
      have : db.warnings.filter
          (fun w => !decide (w.guildId = g ∧ w.userId = u)) = db.warnings := by
        rw [List.filter_eq_self]
        intro w hw
        by_cases hgu : w.guildId = g ∧ w.userId = u
        · exfalso
          have : w ∈ warnRows db g u := by
            unfold warnRows
            rw [List.mem_filter]
            exact ⟨hw, by simpa using hgu⟩
          rw [hempty] at this
          simp at this
        · simp [hgu]
      rw [this]
    unfold clearwarningsCommand
    rw [if_pos hcount, hkeep]

theorem clear_warnings_contract_witness :
    (warnRows (clearWarnings ⟨[⟨1, 7, 8, 3, "x", none, 0⟩,
        ⟨2, 7, 9, 3, "y", some 5, 0⟩], 3⟩ 7 8).1 7 8 = []) ∧
    ((clearWarnings ⟨[⟨1, 7, 8, 3, "x", none, 0⟩,
        ⟨2, 7, 9, 3, "y", some 5, 0⟩], 3⟩ 7 8).2 = 1) ∧
    (warnRows (clearWarnings ⟨[⟨1, 7, 8, 3, "x", none, 0⟩,
        ⟨2, 7, 9, 3, "y", some 5, 0⟩], 3⟩ 7 8).1 7 9 =
      warnRows ⟨[⟨1, 7, 8, 3, "x", none, 0⟩,
        ⟨2, 7, 9, 3, "y", some 5, 0⟩], 3⟩ 7 9) ∧
    (clearwarningsCommand ⟨[⟨1, 7, 8, 3, "x", none, 0⟩,
        ⟨2, 7, 9, 3, "y", some 5, 0⟩], 3⟩ [] 7 99 42 true =
      (⟨[⟨1, 7, 8, 3, "x", none, 0⟩, ⟨2, 7, 9, 3, "y", some 5, 0⟩], 3⟩,
        [], 0)) := by
  have h := clear_warnings_contract ⟨[⟨1, 7, 8, 3, "x", none, 0⟩,
    ⟨2, 7, 9, 3, "y", some 5, 0⟩], 3⟩ [] 7 8 99 true
  have h2 := clear_warnings_contract ⟨[⟨1, 7, 8, 3, "x", none, 0⟩,
    ⟨2, 7, 9, 3, "y", some 5, 0⟩], 3⟩ [] 7 99 42 true
  refine ⟨h.1, ?_, h.2.2.1 7 9 (by decide), h2.2.2.2 (by decide)⟩
  · rw [h.2.1]
    decide

/-! ## The warning/escalation flow (`ModerationCog._register_warning`) -/

structure WarnRegistration where
  warningId : ℤ
  totalWarnings : ℤ
  activeWarnings : ℤ
  expiresAt : Option ℤ
  escalation : Option EscalationStatus
deriving DecidableEq

/-- Method `ModerationCog._register_warning` (moderation.py:350-397): compute the
expiration from policy, insert the warning, best-effort log a `warn`
infraction for it, then evaluate escalation on the returned active count.
Returns the result dictionary, the warning ledger and the audit table.
`warnLogSucceeds` is the persistence verdict of the warn audit write;
`env.auditWriteSucceeds` that of the escalation audit write. -/
def registerWarning (db : WarnDB) (infractions : List Infraction)
    (now g u actorId : ℤ) (reason : String) (s : GuildSettings)
    (warnLogSucceeds : Bool) (env : EscalationEnv) :
    WarnRegistration × WarnDB × List Infraction :=
  let expiresAt := computeWarnExpiresAt now s
  let r := addWarning db now g u actorId reason expiresAt
  let infr1 := safeLogInfraction warnLogSucceeds infractions
    ⟨g, u, actorId, "warn", sanitizeWarnReason reason, some r.warningId,
      expiresAt⟩
  let esc := applyWarnEscalation g u actorId now r.active s env infr1
  (⟨r.warningId, r.total, r.active, expiresAt, esc.status⟩, r.db,
    esc.infractions)

/-- The escalation decision depends neither on the audit table nor on
whether its own audit write succeeds. -/
lemma applyWarnEscalation_status_indep (g u a now active : ℤ)
    (s : GuildSettings) (adm cbm bs ts al1 al2 : Bool)
    (infr1 infr2 : List Infraction) :
    (applyWarnEscalation g u a now active s ⟨adm, cbm, bs, ts, al1⟩
        infr1).status =
      (applyWarnEscalation g u a now active s ⟨adm, cbm, bs, ts, al2⟩
        infr2).status := by
  unfold applyWarnEscalation
  dsimp only
  split_ifs <;> rfl

/-- Claim C8. A persistence failure of either audit-log write in the
warning/escalation flow never propagates: the registration result
(warning id, counts, expiration, escalation decision) and the warning
ledger are the same as when the audit writes succeed. -/
theorem audit_failures_never_propagate (db : WarnDB)
    (infractions : List Infraction) (now g u actorId : ℤ) (reason : String)
    (s : GuildSettings) (adm cbm bs ts wl1 wl2 al1 al2 : Bool) :
    (registerWarning db infractions now g u actorId reason s wl1
        ⟨adm, cbm, bs, ts, al1⟩).1 =
      (registerWarning db infractions now g u actorId reason s wl2
        ⟨adm, cbm, bs, ts, al2⟩).1 ∧
    (registerWarning db infractions now g u actorId reason s wl1
        ⟨adm, cbm, bs, ts, al1⟩).2.1 =
      (registerWarning db infractions now g u actorId reason s wl2
        ⟨adm, cbm, bs, ts, al2⟩).2.1 := by
  constructor
  · unfold registerWarning
    dsimp only
    congr 1
    exact applyWarnEscalation_status_indep g u actorId now _ s
      adm cbm bs ts al1 al2 _ _
  · rfl

/-! ## Role-id round-trip (`_parse_role_ids` / `_serialize_role_ids`)

`_serialize_role_ids` (warn_store.py:62-63) renders `sorted(set(ids))` in
decimal joined by commas; `_parse_role_ids` (warn_store.py:55-59) runs
`re.findall(r"\d{17,20}", raw)`, converts each match to an integer and
returns the sorted set.  Strings are lists of characters here; the regex
engine's behaviour on this pattern — at each position greedily match up to
20 consecutive digits, succeed iff at least 17, else advance one character,
and continue after each match — is modelled by `reFindRoleRuns`. -/

/-- Python `sorted(set(xs))`: the strictly increasing enumeration of the
distinct elements. -/
def pythonSortedSet (xs : List ℕ) : List ℕ :=
  List.insertionSort (· ≤ ·) xs.dedup

/-- Little-endian decimal digits, by structural recursion on a fuel bound
(so that concrete instances evaluate inside the kernel). -/
def decimalDigitsAux : ℕ → ℕ → List ℕ
  | 0, _ => []
  | fuel + 1, n => if n = 0 then [] else n % 10 :: decimalDigitsAux fuel (n / 10)

def decimalDigits (n : ℕ) : List ℕ :=
  decimalDigitsAux n n

lemma decimalDigitsAux_eq_digits :
    ∀ fuel n, n ≤ fuel → decimalDigitsAux fuel n = Nat.digits 10 n := by
  intro fuel
  induction fuel with
  | zero =>
      intro n hn
      interval_cases n
      simp [decimalDigitsAux]
  | succ f ih =>
      intro n hn
      by_cases h0 : n = 0
      · subst h0
        simp [decimalDigitsAux]
      · show (if n = 0 then [] else n % 10 :: decimalDigitsAux f (n / 10)) = _
        rw [if_neg h0]
        rw [ih (n / 10) (by omega)]
        exact (Nat.digits_def' (by norm_num) (Nat.pos_of_ne_zero h0)).symm

lemma decimalDigits_eq_digits (n : ℕ) : decimalDigits n = Nat.digits 10 n :=
  decimalDigitsAux_eq_digits n n le_rfl

/-- Python `str(n)` for a natural number: decimal digits, most significant
first. -/
def natDecimalChars (n : ℕ) : List Char :=
  if n = 0 then ['0'] else (decimalDigits n).reverse.map Nat.digitChar

/-- Python `",".join(strs)`. -/
def joinComma : List (List Char) → List Char
  | [] => []
  | [r] => r
  | r :: rest => r ++ ',' :: joinComma rest

/-- Python `re.findall` of the pattern of 17 to 20 digits, by structural
recursion on a fuel bound:
scan left to right; at each position greedily take up to 20 leading digits,
emit them as a match when at least 17 and resume after the match, else move
one character forward. -/
def reFindAux : ℕ → List Char → List (List Char)
  | 0, _ => []
  | fuel + 1, s =>
      match s with
      | [] => []
      | c :: rest =>
          if 17 ≤ (List.takeWhile Char.isDigit (c :: rest)).length then
            (List.takeWhile Char.isDigit (c :: rest)).take 20 ::
              reFindAux fuel ((c :: rest).drop
                ((List.takeWhile Char.isDigit (c :: rest)).take 20).length)
          else
            reFindAux fuel rest

def reFindRoleRuns (s : List Char) : List (List Char) :=
  reFindAux s.length s

lemma reFindAux_succ_cons (fuel : ℕ) (c : Char) (rest : List Char) :
    reFindAux (fuel + 1) (c :: rest) =
      if 17 ≤ (List.takeWhile Char.isDigit (c :: rest)).length then
        (List.takeWhile Char.isDigit (c :: rest)).take 20 ::
          reFindAux fuel ((c :: rest).drop
            ((List.takeWhile Char.isDigit (c :: rest)).take 20).length)
      else
        reFindAux fuel rest := rfl

/-- The fuel bound is irrelevant once it covers the string length. -/
lemma reFindAux_congr : ∀ (f1 f2 : ℕ) (s : List Char),
    s.length ≤ f1 → s.length ≤ f2 → reFindAux f1 s = reFindAux f2 s := by
  intro f1
  induction f1 with
  | zero =>
      intro f2 s h1 _
      have hs : s = [] := List.length_eq_zero.mp (Nat.le_zero.mp h1)
      subst hs
      cases f2 <;> rfl
  | succ f ih =>
      intro f2 s h1 h2
      cases s with
      | nil => cases f2 <;> rfl
      | cons c rest =>
          cases f2 with
          | zero => simp at h2
          | succ f2' =>
              rw [reFindAux_succ_cons, reFindAux_succ_cons]
              by_cases hg : 17 ≤ (List.takeWhile Char.isDigit (c :: rest)).length
              · rw [if_pos hg, if_pos hg]
                congr 1
                apply ih
                · simp only [List.length_drop, List.length_cons] at h1 ⊢
                  have : 1 ≤ ((List.takeWhile Char.isDigit
                      (c :: rest)).take 20).length := by
                    simp only [List.length_take]
                    omega
                  omega
                · simp only [List.length_drop, List.length_cons] at h2 ⊢
                  have : 1 ≤ ((List.takeWhile Char.isDigit
                      (c :: rest)).take 20).length := by
                    simp only [List.length_take]
                    omega
                  omega
              · rw [if_neg hg, if_neg hg]
                apply ih
                · simp only [List.length_cons] at h1
                  omega
                · simp only [List.length_cons] at h2
                  omega

/-- Python `int(digit-string)`. -/
def digitsVal (cs : List Char) : ℕ :=
  cs.foldl (fun a c => 10 * a + (c.toNat - 48)) 0

/-- Function `_serialize_role_ids` (warn_store.py:62-63). -/
def serializeRoleIds (ids : List ℕ) : List Char :=
  joinComma ((pythonSortedSet ids).map natDecimalChars)

/-- Function `_parse_role_ids` (warn_store.py:55-59). -/
def parseRoleIds (s : List Char) : List ℕ :=
  pythonSortedSet ((reFindRoleRuns s).map digitsVal)

lemma takeWhile_append_all {α : Type} (p : α → Bool) (r s : List α)
    (h : ∀ c ∈ r, p c = true) :
    (r ++ s).takeWhile p = r ++ s.takeWhile p := by
  induction r with
  | nil => simp
  | cons a t ih =>
      have ha : p a = true := h a (List.mem_cons_self a t)
      simp only [List.cons_append, List.takeWhile_cons, ha, if_true]
      rw [ih (fun c hc => h c (List.mem_cons_of_mem a hc))]

lemma pythonSortedSet_sorted (xs : List ℕ) :
    List.Sorted (· ≤ ·) (pythonSortedSet xs) :=
  List.sorted_insertionSort (· ≤ ·) xs.dedup

lemma pythonSortedSet_nodup (xs : List ℕ) : (pythonSortedSet xs).Nodup :=
  (List.perm_insertionSort (· ≤ ·) xs.dedup).nodup_iff.mpr (List.nodup_dedup xs)

lemma mem_pythonSortedSet {x : ℕ} {xs : List ℕ} :
    x ∈ pythonSortedSet xs ↔ x ∈ xs := by
  unfold pythonSortedSet
  rw [List.mem_insertionSort, List.mem_dedup]

lemma pythonSortedSet_eq_self {l : List ℕ} (hs : List.Sorted (· ≤ ·) l)
    (hn : l.Nodup) : pythonSortedSet l = l := by
  unfold pythonSortedSet
  rw [List.dedup_eq_self.mpr hn]
  exact List.Sorted.insertionSort_eq hs

lemma pythonSortedSet_idem (xs : List ℕ) :
    pythonSortedSet (pythonSortedSet xs) = pythonSortedSet xs :=
  pythonSortedSet_eq_self (pythonSortedSet_sorted xs) (pythonSortedSet_nodup xs)

lemma digitChar_isDigit {d : ℕ} (h : d < 10) :
    (Nat.digitChar d).isDigit = true := by
  interval_cases d <;> decide

lemma digitChar_val {d : ℕ} (h : d < 10) :
    (Nat.digitChar d).toNat - 48 = d := by
  interval_cases d <;> decide

lemma natDecimalChars_of_pos {n : ℕ} (h : n ≠ 0) :
    natDecimalChars n = (Nat.digits 10 n).reverse.map Nat.digitChar := by
  unfold natDecimalChars
  rw [if_neg h, decimalDigits_eq_digits]

lemma natDecimalChars_all_digits {n : ℕ} (h : n ≠ 0) :
    ∀ c ∈ natDecimalChars n, c.isDigit = true := by
  rw [natDecimalChars_of_pos h]
  intro c hc
  rcases List.mem_map.mp hc with ⟨d, hd, rfl⟩
  exact digitChar_isDigit
    (Nat.digits_lt_base (by norm_num) (List.mem_reverse.mp hd))

lemma natDecimalChars_length {n : ℕ} (h : n ≠ 0) :
    (natDecimalChars n).length = (Nat.digits 10 n).length := by
  rw [natDecimalChars_of_pos h]
  simp

lemma natDecimalChars_length_bounds {n : ℕ} (h1 : 10 ^ 16 ≤ n)
    (h2 : n < 10 ^ 20) :
    17 ≤ (natDecimalChars n).length ∧ (natDecimalChars n).length ≤ 20 := by
  have hn0 : n ≠ 0 := by
    have : (0 : ℕ) < 10 ^ 16 := by norm_num
    omega
  constructor
  · rw [natDecimalChars_length hn0]
    by_contra hlt
    push_neg at hlt
    have : n < 10 ^ (Nat.digits 10 n).length :=
      Nat.lt_base_pow_length_digits (by norm_num)
    have hle : (10 : ℕ) ^ (Nat.digits 10 n).length ≤ 10 ^ 16 :=
      Nat.pow_le_pow_right (by norm_num) (by omega)
    omega
  · rw [natDecimalChars_length hn0]
    have hup : (10 : ℕ) ^ (Nat.digits 10 n).length ≤ 10 * n :=
      Nat.base_pow_length_digits_le 10 n (by norm_num) hn0
    by_contra hgt
    push_neg at hgt
    have h21 : (10 : ℕ) ^ 21 ≤ 10 ^ (Nat.digits 10 n).length :=
      Nat.pow_le_pow_right (by norm_num) (by omega)
    have : 10 * n < 10 * 10 ^ 20 := by omega
    have : (10 : ℕ) * 10 ^ 20 = 10 ^ 21 := by ring
    omega

lemma foldl_map_digitChar (l : List ℕ) (hl : ∀ d ∈ l, d < 10) :
    ∀ a : ℕ, List.foldl (fun a c => 10 * a + (c.toNat - 48))
        a (l.map Nat.digitChar) =
      List.foldl (fun a d => 10 * a + d) a l := by
  induction l with
  | nil => intro a; rfl
  | cons d t ih =>
      intro a
      simp only [List.map_cons, List.foldl_cons]
      rw [digitChar_val (hl d (List.mem_cons_self d t))]
      exact ih (fun x hx => hl x (List.mem_cons_of_mem d hx)) _

lemma foldl_reverse_ofDigits (ds : List ℕ) :
    List.foldl (fun a d => 10 * a + d) 0 ds.reverse = Nat.ofDigits 10 ds := by
  induction ds with
  | nil => rfl
  | cons d t ih =>
      rw [List.reverse_cons, List.foldl_append, ih, Nat.ofDigits_cons]
      simp only [List.foldl_cons, List.foldl_nil, Nat.cast_id]
      omega

lemma digitsVal_natDecimalChars {n : ℕ} (h : n ≠ 0) :
    digitsVal (natDecimalChars n) = n := by
  rw [natDecimalChars_of_pos h]
  unfold digitsVal
  rw [foldl_map_digitChar _ (fun d hd =>
    Nat.digits_lt_base (by norm_num) (List.mem_reverse.mp hd))]
  calc List.foldl (fun a d => 10 * a + d) 0 (Nat.digits 10 n).reverse
      = Nat.ofDigits 10 (Nat.digits 10 n) := foldl_reverse_ofDigits _
    _ = n := Nat.ofDigits_digits 10 n

lemma reFindRoleRuns_comma (t : List Char) :
    reFindRoleRuns (',' :: t) = reFindRoleRuns t := by
  show reFindAux (t.length + 1) (',' :: t) = reFindRoleRuns t
  rw [reFindAux_succ_cons]
  rw [if_neg]
  · rfl
  · simp [List.takeWhile_cons]

lemma reFindRoleRuns_match_step (r tail : List Char)
    (h17 : 17 ≤ r.length) (h20 : r.length ≤ 20)
    (hdig : ∀ c ∈ r, c.isDigit = true)
    (htail : tail = [] ∨ ∃ t', tail = ',' :: t') :
    reFindRoleRuns (r ++ tail) = r :: reFindRoleRuns tail := by
  have hrun : (r ++ tail).takeWhile Char.isDigit = r := by
    rw [takeWhile_append_all Char.isDigit r tail hdig]
    rcases htail with rfl | ⟨t', rfl⟩
    · simp
    · simp [List.takeWhile_cons]
  cases r with
  | nil => simp at h17
  | cons c r' =>
      show reFindAux ((c :: r' ++ tail).length) (c :: (r' ++ tail)) = _
      have hlen : (c :: r' ++ tail).length = (r' ++ tail).length + 1 := by
        simp
      rw [hlen, reFindAux_succ_cons]
      rw [List.cons_append] at hrun
      rw [if_pos (by rw [hrun]; exact h17)]
      rw [hrun, List.take_of_length_le h20]
      congr 1
      have hdrop : (c :: (r' ++ tail)).drop (c :: r').length = tail := by
        rw [show c :: (r' ++ tail) = (c :: r') ++ tail by simp]
        exact List.drop_left _ _
      rw [hdrop]
      apply reFindAux_congr
      · simp only [List.length_append, List.length_cons] at *
        omega
      · rfl

lemma reFind_joinComma : ∀ runs : List (List Char),
    (∀ r ∈ runs, 17 ≤ r.length ∧ r.length ≤ 20 ∧
      ∀ c ∈ r, c.isDigit = true) →
    reFindRoleRuns (joinComma runs) = runs := by
  intro runs
  induction runs with
  | nil => intro _; rfl
  | cons r rest ih =>
      intro h
      rcases h r (List.mem_cons_self r rest) with ⟨h17, h20, hdig⟩
      cases rest with
      | nil =>
          show reFindRoleRuns r = [r]
          have := reFindRoleRuns_match_step r [] h17 h20 hdig (Or.inl rfl)
          simpa using this
      | cons r2 rest' =>
          show reFindRoleRuns (r ++ ',' :: joinComma (r2 :: rest')) = _
          rw [reFindRoleRuns_match_step r (',' :: joinComma (r2 :: rest'))
            h17 h20 hdig (Or.inr ⟨_, rfl⟩)]
          rw [reFindRoleRuns_comma]
          rw [ih (fun x hx => h x (List.mem_cons_of_mem r hx))]

/-- Claim C10. For every list of role identifiers (each a 17-to-20-digit
decimal number), parsing the serialized form returns exactly the sorted
deduplicated input list — `_parse_role_ids(_serialize_role_ids(ids)) =
sorted(set(ids))` — and serializing is invariant under that normalization,
so serialize-then-parse is idempotent on its own output. -/
theorem parse_serialize_role_ids (ids : List ℕ)
    (hbound : ∀ n ∈ ids, 10 ^ 16 ≤ n ∧ n < 10 ^ 20) :
    parseRoleIds (serializeRoleIds ids) = pythonSortedSet ids ∧
    serializeRoleIds (pythonSortedSet ids) = serializeRoleIds ids := by
  have hmem : ∀ n ∈ pythonSortedSet ids, 10 ^ 16 ≤ n ∧ n < 10 ^ 20 :=
    fun n hn => hbound n (mem_pythonSortedSet.mp hn)
  have hne0 : ∀ n ∈ pythonSortedSet ids, n ≠ 0 := by
    intro n hn
    have h1 := (hmem n hn).1
    have : (0 : ℕ) < 10 ^ 16 := by norm_num
    omega
  constructor
  · unfold parseRoleIds serializeRoleIds
    rw [reFind_joinComma]
    · rw [List.map_map]
      have hid : List.map (digitsVal ∘ natDecimalChars)
          (pythonSortedSet ids) = List.map id (pythonSortedSet ids) :=
        List.map_eq_map_iff.mpr
          (fun n hn => digitsVal_natDecimalChars (hne0 n hn))
      rw [hid, List.map_id, pythonSortedSet_idem]
    · intro r hr
      rcases List.mem_map.mp hr with ⟨n, hn, rfl⟩
      obtain ⟨hl, hu⟩ := hmem n hn
      obtain ⟨hL1, hL2⟩ := natDecimalChars_length_bounds hl hu
      exact ⟨hL1, hL2, natDecimalChars_all_digits (hne0 n hn)⟩
  · unfold serializeRoleIds
    rw [pythonSortedSet_idem]

theorem parse_serialize_role_ids_witness :
    parseRoleIds (serializeRoleIds
        [10000000000000000005, 99999999999999999, 10000000000000000005]) =
      pythonSortedSet
        [10000000000000000005, 99999999999999999, 10000000000000000005] ∧
    serializeRoleIds (pythonSortedSet
        [10000000000000000005, 99999999999999999, 10000000000000000005]) =
      serializeRoleIds
        [10000000000000000005, 99999999999999999, 10000000000000000005] :=
  parse_serialize_role_ids
    [10000000000000000005, 99999999999999999, 10000000000000000005]
    (by decide)
